import Mathlib

/-!
Verification development for the CryptoTAEngine backtesting core.

The Lean definitions below are a shallow embedding of the Python sources:

* `src/app/backtesting/metrics.py`   (class `PerformanceMetrics`)
* `src/app/backtesting/engine.py`    (class `BacktestEngine`)
* `src/app/strategies/base.py`       (class `BaseStrategy`)
* `src/app/utils/cache.py`           (class `BacktestCache`)

Modelling conventions:

* Python floats are modelled by the real numbers `ℝ`.  The claims proved
  here only involve values at which IEEE-754 arithmetic is exact, or
  branch decisions that do not depend on rounding.
* A Python trade dictionary (`dict`) is modelled as an association list
  `List (String × ℝ)`; `dict.get k d` is `(l.lookup k).getD d`.
* `numpy` reductions (`mean`, `std`, `percentile`, `cov`, `var`, ...) are
  embedded by their mathematical definitions with numpy's default
  degrees-of-freedom conventions (`np.std`/`np.var` divide by `n`,
  `np.cov` divides by `n - 1`).
* `np.mean` of an empty list is NaN in numpy; in this embedding `0/0 = 0`.
  Every claim proved below stays away from that corner, or the source
  guards it explicitly.
-/

namespace PerformanceMetrics

/-- A trade record: Python `dict` from string keys to float values,
modelled as an association list (`src/app/strategies/base.py` stores the
trade date as well; dates are modelled as numeric timestamps so that the
record stays homogeneous). -/
abbrev TradeRec := List (String × ℝ)

/-- `t.get('pnl', 0)` as used throughout the trading metrics
(`metrics.py` lines 223, 232-233, 243, 251, 261). -/
def tradePnl (t : TradeRec) : ℝ := (t.lookup "pnl").getD 0

/-- `np.mean` (sum divided by length). -/
noncomputable def npMean (l : List ℝ) : ℝ := l.sum / l.length

/-- `np.std` with numpy's default `ddof = 0`: population standard
deviation, the square root of the mean squared deviation. -/
noncomputable def npStd (l : List ℝ) : ℝ :=
  Real.sqrt (npMean (l.map fun x => (x - npMean l) ^ (2 : ℕ)))

/-- `np.var` with numpy's default `ddof = 0` (used by `beta`). -/
noncomputable def npVar (l : List ℝ) : ℝ :=
  npMean (l.map fun x => (x - npMean l) ^ (2 : ℕ))

/-- `np.cov(x, y)[0, 1]` with numpy's default `ddof = 1`: sample
covariance, dividing by `n - 1`. -/
noncomputable def npCov (x y : List ℝ) : ℝ :=
  (List.zipWith (fun a b => (a - npMean x) * (b - npMean y)) x y).sum
    / ((x.length : ℝ) - 1)

/-- `np.min` of a nonempty array (callers guard emptiness; returns 0 on
`[]` in the model, a case the source never reaches). -/
noncomputable def npMinL : List ℝ → ℝ
  | [] => 0
  | x :: xs => xs.foldl min x

/-- `np.maximum.accumulate`: running prefix maximum
(`metrics.py` line 142). -/
noncomputable def maxAccumFrom (m : ℝ) : List ℝ → List ℝ
  | [] => []
  | x :: xs => max m x :: maxAccumFrom (max m x) xs

noncomputable def maxAccum : List ℝ → List ℝ
  | [] => []
  | x :: xs => x :: maxAccumFrom x xs

/-- `returns = np.diff(portfolio_values) / portfolio_values[:-1]`
(`metrics.py` line 39): per-period simple returns. -/
noncomputable def returnsOf (vs : List ℝ) : List ℝ :=
  (vs.zip vs.tail).map fun p => (p.2 - p.1) / p.1

/-- `np.percentile` with numpy's default linear interpolation between
order statistics (only its totality matters for the claims below). -/
noncomputable def npPercentile (l : List ℝ) (q : ℝ) : ℝ :=
  let s := l.insertionSort (· ≤ ·)
  let pos := q / 100 * ((l.length : ℝ) - 1)
  let i := (⌊pos⌋).toNat
  let j := min (i + 1) (l.length - 1)
  s.getD i 0 + (pos - ⌊pos⌋) * (s.getD j 0 - s.getD i 0)

/-- `TRADING_DAYS_PER_YEAR` (`metrics.py` line 13). -/
def TRADING_DAYS_PER_YEAR : ℝ := 252

/-- `RISK_FREE_RATE` (`metrics.py` line 14). -/
def RISK_FREE_RATE : ℝ := 0.02

/-- `PerformanceMetrics.total_return` (`metrics.py` lines 102-107). -/
noncomputable def total_return (vs : List ℝ) : ℝ :=
  if vs.length < 2 then 0
  else (vs.getLastD 0 / vs.headD 0 - 1) * 100

/-- `PerformanceMetrics.annualized_return` (`metrics.py` lines 109-115). -/
noncomputable def annualized_return (rs : List ℝ) : ℝ :=
  if rs.length = 0 then 0
  else npMean rs * TRADING_DAYS_PER_YEAR * 100

/-- `PerformanceMetrics.cagr` (`metrics.py` lines 117-126); `**` is real
exponentiation. -/
noncomputable def cagr (vs : List ℝ) : ℝ :=
  if vs.length < 2 then 0
  else
    let tr := vs.getLastD 0 / vs.headD 0
    let years := (vs.length : ℝ) / TRADING_DAYS_PER_YEAR
    if years ≤ 0 then 0
    else (tr ^ (1 / years) - 1) * 100

/-- `PerformanceMetrics.volatility` (`metrics.py` lines 129-134). -/
noncomputable def volatility (rs : List ℝ) : ℝ :=
  if rs.length < 2 then 0
  else npStd rs * Real.sqrt TRADING_DAYS_PER_YEAR * 100

/-- `PerformanceMetrics.max_drawdown` (`metrics.py` lines 136-144). -/
noncomputable def max_drawdown (vs : List ℝ) : ℝ :=
  if vs.length < 2 then 0
  else npMinL (List.zipWith (fun v m => (v - m) / m) vs (maxAccum vs)) * 100

/-- `PerformanceMetrics.value_at_risk` (`metrics.py` lines 146-151). -/
noncomputable def value_at_risk (rs : List ℝ) (confidence : ℝ) : ℝ :=
  if rs.length = 0 then 0
  else npPercentile rs ((1 - confidence) * 100) * 100

/-- `PerformanceMetrics.conditional_var` (`metrics.py` lines 153-159). -/
noncomputable def conditional_var (rs : List ℝ) (confidence : ℝ) : ℝ :=
  if rs.length = 0 then 0
  else
    let var := npPercentile rs ((1 - confidence) * 100)
    npMean (rs.filter fun r => r ≤ var) * 100

/-- `PerformanceMetrics.sharpe_ratio` with the default risk-free rate
(`metrics.py` lines 162-180). -/
noncomputable def sharpe_ratio (rs : List ℝ) : ℝ :=
  if rs.length < 2 then 0
  else
    let mean_return := npMean rs
    let std_return := npStd rs
    if std_return = 0 then 0
    else
      let daily_rf := RISK_FREE_RATE / TRADING_DAYS_PER_YEAR
      (mean_return - daily_rf) / std_return * Real.sqrt TRADING_DAYS_PER_YEAR

/-- `PerformanceMetrics.sortino_ratio` with the default risk-free rate
(`metrics.py` lines 182-204). -/
noncomputable def sortino_ratio (rs : List ℝ) : ℝ :=
  if rs.length < 2 then 0
  else
    let daily_rf := RISK_FREE_RATE / TRADING_DAYS_PER_YEAR
    let downside := rs.filter fun r => r < daily_rf
    if downside.length = 0 then 0
    else
      let dstd := npStd downside
      if dstd = 0 then 0
      else (npMean rs - daily_rf) / dstd * Real.sqrt TRADING_DAYS_PER_YEAR

/-- `PerformanceMetrics.calmar_ratio` (`metrics.py` lines 206-214). -/
noncomputable def calmar_ratio (vs : List ℝ) : ℝ :=
  if |max_drawdown vs| = 0 then 0
  else cagr vs / |max_drawdown vs|

/-- `PerformanceMetrics.win_rate` (`metrics.py` lines 217-224). -/
noncomputable def win_rate (trades : List TradeRec) : ℝ :=
  if trades.length = 0 then 0
  else ((trades.countP fun t => decide (0 < tradePnl t) : ℕ) : ℝ)
    / (trades.length : ℝ) * 100

/-- The value of Python's `float('inf')`-capable `profit_factor`: either a
finite float or positive infinity. -/
inductive PyFloat where
  | fin (x : ℝ)
  | inf

/-- `gross_profit` (`metrics.py` line 232). -/
noncomputable def gross_profit (trades : List TradeRec) : ℝ :=
  ((trades.filter fun t => decide (0 < tradePnl t)).map tradePnl).sum

/-- `gross_loss` (`metrics.py` line 233). -/
noncomputable def gross_loss (trades : List TradeRec) : ℝ :=
  |((trades.filter fun t => decide (tradePnl t < 0)).map tradePnl).sum|

/-- `PerformanceMetrics.profit_factor` (`metrics.py` lines 226-238). -/
noncomputable def profit_factor (trades : List TradeRec) : PyFloat :=
  if trades.length = 0 then .fin 0
  else if gross_loss trades = 0 then
    if 0 < gross_profit trades then .inf else .fin 0
  else .fin (gross_profit trades / gross_loss trades)

/-- `PerformanceMetrics.avg_win` (`metrics.py` lines 240-246). -/
noncomputable def avg_win (trades : List TradeRec) : ℝ :=
  let winning := (trades.map tradePnl).filter fun p => decide (0 < p)
  if winning.length = 0 then 0 else npMean winning

/-- `PerformanceMetrics.avg_loss` (`metrics.py` lines 248-254). -/
noncomputable def avg_loss (trades : List TradeRec) : ℝ :=
  let losing := (trades.map tradePnl).filter fun p => decide (p < 0)
  if losing.length = 0 then 0 else npMean losing

/-- `PerformanceMetrics.avg_trade` (`metrics.py` lines 256-261). -/
noncomputable def avg_trade (trades : List TradeRec) : ℝ :=
  if trades.length = 0 then 0 else npMean (trades.map tradePnl)

/-- `PerformanceMetrics.beta` (`metrics.py` lines 278-291). -/
noncomputable def beta (rs benchmark : List ℝ) : ℝ :=
  if rs.length ≠ benchmark.length ∨ rs.length < 2 then 0
  else if npVar benchmark = 0 then 0
  else npCov rs benchmark / npVar benchmark

/-- `PerformanceMetrics.alpha` (`metrics.py` lines 264-276). -/
noncomputable def alpha (rs benchmark : List ℝ) : ℝ :=
  if rs.length ≠ benchmark.length ∨ rs.length < 2 then 0
  else (npMean rs - beta rs benchmark * npMean benchmark)
    * TRADING_DAYS_PER_YEAR * 100

/-- The metrics record built by `calculate_all` (`metrics.py` lines
41-75): a Python dict with a fixed key set, modelled as a structure.
`total_trades` is an int; `profit_factor` may be infinite; `alpha` and
`beta` are `None` when no matching benchmark is supplied. -/
structure Metrics where
  total_return : ℝ
  annual_return : ℝ
  cagr : ℝ
  volatility : ℝ
  max_drawdown : ℝ
  var_95 : ℝ
  cvar_95 : ℝ
  sharpe_ratio : ℝ
  sortino_ratio : ℝ
  calmar_ratio : ℝ
  total_trades : ℕ
  win_rate : ℝ
  profit_factor : PyFloat
  avg_win : ℝ
  avg_loss : ℝ
  avg_trade : ℝ
  alpha : Option ℝ
  beta : Option ℝ

/-- `PerformanceMetrics._empty_metrics` (`metrics.py` lines 77-99). -/
def empty_metrics : Metrics where
  total_return := 0
  annual_return := 0
  cagr := 0
  volatility := 0
  max_drawdown := 0
  var_95 := 0
  cvar_95 := 0
  sharpe_ratio := 0
  sortino_ratio := 0
  calmar_ratio := 0
  total_trades := 0
  win_rate := 0
  profit_factor := .fin 0
  avg_win := 0
  avg_loss := 0
  avg_trade := 0
  alpha := none
  beta := none

/-- `PerformanceMetrics.calculate_all` (`metrics.py` lines 16-75).
`initial_capital` is accepted and unused, exactly as in the source. -/
noncomputable def calculate_all (portfolio_values : List ℝ)
    (trades : List TradeRec) (initial_capital : ℝ)
    (benchmark_returns : Option (List ℝ)) : Metrics :=
  if portfolio_values.length < 2 then empty_metrics
  else
    let rs := returnsOf portfolio_values
    { total_return := total_return portfolio_values
      annual_return := annualized_return rs
      cagr := cagr portfolio_values
      volatility := volatility rs
      max_drawdown := max_drawdown portfolio_values
      var_95 := value_at_risk rs 0.95
      cvar_95 := conditional_var rs 0.95
      sharpe_ratio := sharpe_ratio rs
      sortino_ratio := sortino_ratio rs
      calmar_ratio := calmar_ratio portfolio_values
      total_trades := trades.length
      win_rate := win_rate trades
      profit_factor := profit_factor trades
      avg_win := avg_win trades
      avg_loss := avg_loss trades
      avg_trade := avg_trade trades
      alpha := match benchmark_returns with
        | some b => if b.length = rs.length then some (alpha rs b) else none
        | none => none
      beta := match benchmark_returns with
        | some b => if b.length = rs.length then some (beta rs b) else none
        | none => none }

end PerformanceMetrics

namespace PerformanceMetrics

/-- The trade record built by `BaseStrategy.notify_trade`
(`src/app/strategies/base.py` lines 138-150): exactly the keys
`date`, `profit`, `profit_net` and `commission`. -/
def notify_trade_record (date profit profit_net commission : ℝ) : TradeRec :=
  [("date", date), ("profit", profit),
   ("profit_net", profit_net), ("commission", commission)]

lemma tradePnl_notify_trade_record (d p pn c : ℝ) :
    tradePnl (notify_trade_record d p pn c) = 0 := rfl

lemma tradePnl_eq_zero_of_mem_notify (l : List (ℝ × ℝ × ℝ × ℝ)) (t : TradeRec)
    (ht : t ∈ l.map fun x => notify_trade_record x.1 x.2.1 x.2.2.1 x.2.2.2) :
    tradePnl t = 0 := by
  obtain ⟨x, -, rfl⟩ := List.mem_map.mp ht
  rfl

/-- **C2.** Every trade list coming out of the engine's strategy layer is a
list of `notify_trade` records, which carry only the keys `date`, `profit`,
`profit_net`, `commission`.  Since each trading metric reads `t.get('pnl', 0)`,
`win_rate`, `profit_factor`, `avg_win`, `avg_loss` and `avg_trade` all
evaluate to `0` no matter what the recorded profits and losses were. -/
theorem notify_trade_records_zero_metrics (l : List (ℝ × ℝ × ℝ × ℝ)) :
    win_rate (l.map fun x => notify_trade_record x.1 x.2.1 x.2.2.1 x.2.2.2) = 0 ∧
    profit_factor (l.map fun x => notify_trade_record x.1 x.2.1 x.2.2.1 x.2.2.2)
      = .fin 0 ∧
    avg_win (l.map fun x => notify_trade_record x.1 x.2.1 x.2.2.1 x.2.2.2) = 0 ∧
    avg_loss (l.map fun x => notify_trade_record x.1 x.2.1 x.2.2.1 x.2.2.2) = 0 ∧
    avg_trade (l.map fun x => notify_trade_record x.1 x.2.1 x.2.2.1 x.2.2.2) = 0 := by
  set trades := l.map fun x => notify_trade_record x.1 x.2.1 x.2.2.1 x.2.2.2 with htr
  have hz : ∀ t ∈ trades, tradePnl t = 0 := fun t ht =>
    tradePnl_eq_zero_of_mem_notify l t (htr ▸ ht)
  have hcount : trades.countP (fun t => decide (0 < tradePnl t)) = 0 :=
    List.countP_eq_zero.mpr fun t ht => by simp [hz t ht]
  have hgp : gross_profit trades = 0 := by
    have : trades.filter (fun t => decide (0 < tradePnl t)) = [] :=
      List.filter_eq_nil_iff.mpr fun t ht => by simp [hz t ht]
    simp [gross_profit, this]
  have hgl : gross_loss trades = 0 := by
    have : trades.filter (fun t => decide (tradePnl t < 0)) = [] :=
      List.filter_eq_nil_iff.mpr fun t ht => by simp [hz t ht]
    simp [gross_loss, this]
  have hmap0 : ∀ p ∈ trades.map tradePnl, p = 0 := by
    intro p hp
    obtain ⟨t, ht, rfl⟩ := List.mem_map.mp hp
    exact hz t ht
  refine ⟨?_, ?_, ?_, ?_, ?_⟩
  · by_cases h : trades.length = 0 <;> simp [win_rate, h, hcount]
  · by_cases h : trades.length = 0 <;> simp [profit_factor, h, hgp, hgl]
  · have : (trades.map tradePnl).filter (fun p => decide (0 < p)) = [] :=
      List.filter_eq_nil_iff.mpr fun p hp => by simp [hmap0 p hp]
    simp [avg_win, this]
  · have : (trades.map tradePnl).filter (fun p => decide (p < 0)) = [] :=
      List.filter_eq_nil_iff.mpr fun p hp => by simp [hmap0 p hp]
    simp [avg_loss, this]
  · by_cases h : trades.length = 0
    · simp [avg_trade, h]
    · have hsum : (trades.map tradePnl).sum = 0 := List.sum_eq_zero hmap0
      simp [avg_trade, h, npMean, hsum]

/-- **C6.** With fewer than two equity points, `calculate_all` returns the
all-zero metrics record (alpha and beta absent), for any trade list,
initial capital and benchmark, raising no error (the model is a total
function). -/
theorem calculate_all_short_series (values : List ℝ) (trades : List TradeRec)
    (cap : ℝ) (bm : Option (List ℝ)) (h : values.length < 2) :
    calculate_all values trades cap bm =
      { total_return := 0, annual_return := 0, cagr := 0, volatility := 0
        max_drawdown := 0, var_95 := 0, cvar_95 := 0, sharpe_ratio := 0
        sortino_ratio := 0, calmar_ratio := 0, total_trades := 0, win_rate := 0
        profit_factor := .fin 0, avg_win := 0, avg_loss := 0, avg_trade := 0
        alpha := none, beta := none } := by
  unfold calculate_all
  rw [if_pos h]
  rfl

/-- Witness for C6 at a concrete input: a single-point series, a nonempty
trade list, a benchmark. -/
theorem calculate_all_short_series_witness :
    calculate_all [(100 : ℝ)] [[("pnl", (5 : ℝ))]] 1000 (some [1, 2]) =
      { total_return := 0, annual_return := 0, cagr := 0, volatility := 0
        max_drawdown := 0, var_95 := 0, cvar_95 := 0, sharpe_ratio := 0
        sortino_ratio := 0, calmar_ratio := 0, total_trades := 0, win_rate := 0
        profit_factor := .fin 0, avg_win := 0, avg_loss := 0, avg_trade := 0
        alpha := none, beta := none } :=
  calculate_all_short_series [(100 : ℝ)] [[("pnl", (5 : ℝ))]] 1000
    (some [1, 2]) (by decide)

end PerformanceMetrics

namespace PerformanceMetrics

lemma maxAccumFrom_replicate (c : ℝ) (k : ℕ) :
    maxAccumFrom c (List.replicate k c) = List.replicate k c := by
  induction k with
  | zero => rfl
  | succ k ih => simp [List.replicate, maxAccumFrom, max_self, ih]

lemma maxAccum_replicate (c : ℝ) (n : ℕ) :
    maxAccum (List.replicate n c) = List.replicate n c := by
  cases n with
  | zero => rfl
  | succ k => simp [List.replicate, maxAccum, maxAccumFrom_replicate]

lemma zipWith_replicate_same {α β γ : Type} (f : α → β → γ) (n : ℕ) (a : α) (b : β) :
    List.zipWith f (List.replicate n a) (List.replicate n b)
      = List.replicate n (f a b) := by
  induction n with
  | zero => rfl
  | succ k ih => simp [List.replicate, ih]

lemma foldl_min_replicate (x : ℝ) (k : ℕ) :
    List.foldl min x (List.replicate k x) = x := by
  induction k with
  | zero => rfl
  | succ k ih => simp [List.replicate, min_self, ih]

lemma npMinL_replicate (x : ℝ) (n : ℕ) : npMinL (List.replicate n x) = x ∨ n = 0 := by
  cases n with
  | zero => exact Or.inr rfl
  | succ k => exact Or.inl (by simp [List.replicate, npMinL, foldl_min_replicate])

lemma tail_replicate {α : Type} (n : ℕ) (c : α) :
    (List.replicate n c).tail = List.replicate (n - 1) c := by
  cases n <;> simp [List.replicate]

lemma returnsOf_replicate (n : ℕ) (c : ℝ) (hn : 2 ≤ n) :
    returnsOf (List.replicate n c) = List.replicate (n - 1) 0 := by
  have hmin : min n (n - 1) = n - 1 := min_eq_right (Nat.sub_le n 1)
  simp [returnsOf, tail_replicate, List.zip_replicate, hmin, List.map_replicate]

lemma npMean_replicate_zero (m : ℕ) : npMean (List.replicate m (0 : ℝ)) = 0 := by
  simp [npMean]

lemma npStd_replicate_zero (m : ℕ) : npStd (List.replicate m (0 : ℝ)) = 0 := by
  simp [npStd, npMean, List.map_replicate]

lemma max_drawdown_replicate (n : ℕ) (c : ℝ) :
    max_drawdown (List.replicate n c) = 0 := by
  by_cases h : (List.replicate n c).length < 2
  · unfold max_drawdown; rw [if_pos h]
  · have hzip : List.zipWith (fun v m => (v - m) / m) (List.replicate n c)
        (maxAccum (List.replicate n c)) = List.replicate n 0 := by
      rw [maxAccum_replicate, zipWith_replicate_same]
      simp
    rw [max_drawdown, if_neg h, hzip]
    rcases npMinL_replicate (0 : ℝ) n with h0 | h0
    · rw [h0]; ring
    · exfalso; simp [h0] at h
  
lemma volatility_replicate_zero (m : ℕ) :
    volatility (List.replicate m (0 : ℝ)) = 0 := by
  by_cases h : (List.replicate m (0 : ℝ)).length < 2
  · unfold volatility; rw [if_pos h]
  · rw [volatility, if_neg h, npStd_replicate_zero]; ring

lemma sharpe_replicate_zero (m : ℕ) :
    sharpe_ratio (List.replicate m (0 : ℝ)) = 0 := by
  by_cases h : (List.replicate m (0 : ℝ)).length < 2
  · unfold sharpe_ratio; rw [if_pos h]
  · rw [sharpe_ratio, if_neg h]
    simp [npStd_replicate_zero]

/-- **C7.** On a constant positive equity series of length at least two,
`calculate_all` reports zero maximum drawdown, zero volatility and a zero
Sharpe ratio. -/
theorem constant_series_zero_risk (n : ℕ) (c : ℝ) (trades : List TradeRec)
    (cap : ℝ) (hn : 2 ≤ n) (hc : 0 < c) :
    (calculate_all (List.replicate n c) trades cap none).max_drawdown = 0 ∧
    (calculate_all (List.replicate n c) trades cap none).volatility = 0 ∧
    (calculate_all (List.replicate n c) trades cap none).sharpe_ratio = 0 := by
  have hnot : ¬ (List.replicate n c).length < 2 := by
    simp only [List.length_replicate]; omega
  have hmd : (calculate_all (List.replicate n c) trades cap none).max_drawdown
      = max_drawdown (List.replicate n c) := by
    simp only [calculate_all, if_neg hnot]
  have hvol : (calculate_all (List.replicate n c) trades cap none).volatility
      = volatility (returnsOf (List.replicate n c)) := by
    simp only [calculate_all, if_neg hnot]
  have hsh : (calculate_all (List.replicate n c) trades cap none).sharpe_ratio
      = sharpe_ratio (returnsOf (List.replicate n c)) := by
    simp only [calculate_all, if_neg hnot]
  refine ⟨?_, ?_, ?_⟩
  · rw [hmd, max_drawdown_replicate]
  · rw [hvol, returnsOf_replicate n c hn, volatility_replicate_zero]
  · rw [hsh, returnsOf_replicate n c hn, sharpe_replicate_zero]

/-- Witness for C7: the 2-bar constant series at price 1. -/
theorem constant_series_zero_risk_witness :
    (calculate_all (List.replicate 2 (1 : ℝ)) [] 1000 none).max_drawdown = 0 ∧
    (calculate_all (List.replicate 2 (1 : ℝ)) [] 1000 none).volatility = 0 ∧
    (calculate_all (List.replicate 2 (1 : ℝ)) [] 1000 none).sharpe_ratio = 0 :=
  constant_series_zero_risk 2 1 [] 1000 (by decide) one_pos

end PerformanceMetrics

namespace PerformanceMetrics

/-- The spec's formulation of the profit factor (§4.3/§8 of the spec):
`gross_profit / gross_loss`, infinite when `gross_loss = 0 < gross_profit`,
zero when `gross_loss = 0` and `gross_profit` is not positive.  Stated
separately from `profit_factor` (which is translated from the source) so
that the two can be compared. -/
noncomputable def profit_factor_spec (gp gl : ℝ) : PyFloat :=
  if gl = 0 then (if 0 < gp then .inf else .fin 0) else .fin (gp / gl)

lemma tradePnl_single (x : ℝ) : tradePnl [("pnl", x)] = x := rfl

/-- **C8.** For trade lists whose records carry a `pnl` value, the code's
`profit_factor` agrees with the spec formula (including both
`gross_loss = 0` edge cases), and on pnl values `[+10, +5, -20]` it
equals `0.75`. -/
theorem profit_factor_formula :
    (∀ trades : List TradeRec, (∀ t ∈ trades, "pnl" ∈ t.map Prod.fst) →
      profit_factor trades
        = profit_factor_spec (gross_profit trades) (gross_loss trades)) ∧
    profit_factor [[("pnl", (10 : ℝ))], [("pnl", (5 : ℝ))], [("pnl", (-20 : ℝ))]]
      = .fin 0.75 := by
  constructor
  · intro trades hkeys
    by_cases hlen : trades.length = 0
    · have : trades = [] := List.length_eq_zero.mp hlen
      subst this
      simp [profit_factor, profit_factor_spec, gross_profit, gross_loss]
    · unfold profit_factor profit_factor_spec
      rw [if_neg hlen]
  · have e10 : tradePnl [("pnl", (10 : ℝ))] = 10 := rfl
    have e5 : tradePnl [("pnl", (5 : ℝ))] = 5 := rfl
    have em20 : tradePnl [("pnl", (-20 : ℝ))] = -20 := rfl
    have hgp : gross_profit
        [[("pnl", (10 : ℝ))], [("pnl", (5 : ℝ))], [("pnl", (-20 : ℝ))]] = 15 := by
      unfold gross_profit
      norm_num [List.filter_cons, e10, e5, em20]
    have hgl : gross_loss
        [[("pnl", (10 : ℝ))], [("pnl", (5 : ℝ))], [("pnl", (-20 : ℝ))]] = 20 := by
      unfold gross_loss
      norm_num [List.filter_cons, e10, e5, em20]
    unfold profit_factor
    rw [hgp, hgl]
    norm_num

/-- Witness for C8: the code/spec agreement instantiated on a concrete
one-trade list carrying a `pnl` key. -/
theorem profit_factor_formula_witness :
    profit_factor [[("pnl", (3 : ℝ))]]
      = profit_factor_spec (gross_profit [[("pnl", (3 : ℝ))]])
          (gross_loss [[("pnl", (3 : ℝ))]]) := by
  have h := profit_factor_formula
  exact h.1 [[("pnl", (3 : ℝ))]] (by simp)

lemma returnsOf_length (vs : List ℝ) :
    (returnsOf vs).length = vs.length - 1 := by
  simp only [returnsOf, List.length_map, List.length_zip, List.length_tail]
  omega

lemma beta_eq_formula (rs bmr : List ℝ) (h : rs.length = bmr.length)
    (h2 : 2 ≤ rs.length) :
    beta rs bmr = if npVar bmr = 0 then 0 else npCov rs bmr / npVar bmr := by
  unfold beta
  rw [if_neg]
  push_neg
  exact ⟨h, by omega⟩

lemma calculate_all_beta_some (values : List ℝ) (trades : List TradeRec)
    (cap : ℝ) (bmr : List ℝ) (hb : bmr.length = (returnsOf values).length)
    (hlen : ¬ values.length < 2) :
    (calculate_all values trades cap (some bmr)).beta
      = some (beta (returnsOf values) bmr) := by
  simp only [calculate_all, if_neg hlen]
  show (if bmr.length = (returnsOf values).length
      then some (beta (returnsOf values) bmr) else none)
    = some (beta (returnsOf values) bmr)
  rw [if_pos hb]

/-- **C9.** With a benchmark of the same length as the return series
(length at least 2), the reported `beta` is `Cov(returns, benchmark) /
Var(benchmark)` (covariance with numpy's `ddof = 1`, variance with
`ddof = 0`, exactly as `np.cov`/`np.var` compute them) and `0` when the
benchmark variance vanishes; without an equal-length benchmark, `alpha`
and `beta` are reported as absent (`none`), not as `0`. -/
theorem beta_formula_and_absent_benchmark (values : List ℝ)
    (trades : List TradeRec) (cap : ℝ) :
    (∀ bmr : List ℝ, bmr.length = (returnsOf values).length →
      2 ≤ (returnsOf values).length →
      (calculate_all values trades cap (some bmr)).beta
        = some (if npVar bmr = 0 then 0
                else npCov (returnsOf values) bmr / npVar bmr)) ∧
    ((calculate_all values trades cap none).alpha = none ∧
     (calculate_all values trades cap none).beta = none) ∧
    (∀ bmr : List ℝ, bmr.length ≠ (returnsOf values).length →
      (calculate_all values trades cap (some bmr)).alpha = none ∧
      (calculate_all values trades cap (some bmr)).beta = none) := by
  refine ⟨?_, ?_, ?_⟩
  · intro bmr hb h2
    have hlen : ¬ values.length < 2 := by
      have := returnsOf_length values
      omega
    rw [calculate_all_beta_some values trades cap bmr hb hlen]
    rw [beta_eq_formula (returnsOf values) bmr hb.symm h2]
  · by_cases hv : values.length < 2 <;>
      simp [calculate_all, hv, empty_metrics]
  · intro bmr hne
    by_cases hv : values.length < 2 <;>
      simp [calculate_all, hv, hne, empty_metrics]

/-- Witness for C9: a 3-point series (two returns) with an equal-length
benchmark, and a mismatched benchmark. -/
theorem beta_formula_and_absent_benchmark_witness :
    (calculate_all [(1 : ℝ), 1, 2] [] 0 (some [0, 2])).beta
      = some (if npVar [(0 : ℝ), 2] = 0 then 0
              else npCov (returnsOf [(1 : ℝ), 1, 2]) [0, 2]
                / npVar [(0 : ℝ), 2]) ∧
    (calculate_all [(1 : ℝ), 1, 2] [] 0 (some [1, 2, 3])).beta = none := by
  have h := beta_formula_and_absent_benchmark [(1 : ℝ), 1, 2] [] 0
  refine ⟨h.1 [0, 2] ?_ ?_, (h.2.2 [1, 2, 3] ?_).2⟩
  · simp [returnsOf]
  · simp [returnsOf_length]
  · simp [returnsOf_length]

end PerformanceMetrics

namespace BacktestEngine

open PerformanceMetrics

/-- Terminal job status of a result dict (`engine.py` lines 171, 185). -/
inductive JobStatus where
  | completed
  | failed
deriving DecidableEq

/-- The Python exceptions that `optimize_parameters` can raise past its
own boundary: a `KeyError` from dict access, or the explicit
`BacktestError` (`engine.py` lines 250-254). -/
inductive PyErr where
  | keyError (key : String)
  | backtestError (msg : String)
deriving DecidableEq

/-- The data `run_backtest` extracts from a completed `cerebro.run()`:
final broker value, the strategy's recorded trades and portfolio values
(`engine.py` lines 125-130). -/
structure RunData where
  final_value : ℝ
  trades : List TradeRec
  portfolio_values : List ℝ

/-- The result dict returned by `run_backtest`.  A `completed` dict
carries `parameters` and `metrics`; the `failed` dict built in the
`except` clause (`engine.py` lines 183-188) has *only* `job_id`,
`status`, `error` and `execution_time` keys, so `parameters` and
`metrics` are `none` there.  (`job_id`, `plot_html` and the timing
fields are irrelevant to every claim and are not modelled.) -/
structure BTResult (α : Type) where
  status : JobStatus
  parameters : Option (List (String × α))
  metrics : Option Metrics
  error : Option String

/-- `BacktestEngine.run_backtest` (`engine.py` lines 73-188).  The body
of the `try` block — feed preparation, the `cerebro.run()` bar replay and
trade/value extraction — is summarized by its outcome `body`: `.ok` with
the extracted run data, or `.error e` where `e` is `str(exception)` of
whatever the body raised.  The blanket `except Exception` clause makes
the function total: it builds a `failed` result dict instead of
re-raising. -/
noncomputable def run_backtest {α : Type} (parameters : List (String × α))
    (initial_capital : ℝ) (benchmark_returns : Option (List ℝ))
    (body : Except String RunData) : BTResult α :=
  match body with
  | .ok d =>
    { status := .completed
      parameters := some parameters
      metrics := some (calculate_all d.portfolio_values d.trades
        initial_capital benchmark_returns)
      error := none }
  | .error e =>
    { status := .failed, parameters := none, metrics := none, error := some e }

/-- `itertools.product` over the grid's value lists, leftmost factor
varying slowest (`engine.py` lines 374-384). -/
def cartProd {α : Type} : List (List α) → List (List α)
  | [] => [[]]
  | l :: ls => l.flatMap fun x => (cartProd ls).map (x :: ·)

/-- `BacktestEngine._generate_param_combinations` (`engine.py` lines
369-384): the full Cartesian product of the value lists, each combination
turned into `dict(zip(keys, combination))` with the grid's declared key
order. -/
def generate_param_combinations {α : Type} (grid : List (String × List α)) :
    List (List (String × α)) :=
  (cartProd (grid.map Prod.snd)).map fun combo => (grid.map Prod.fst).zip combo

/-- The float-valued entries of the metrics dict, by key.
(`profit_factor` can be infinite and `alpha`/`beta` can be `None`;
ranking by those keys exercises Python float/None comparison behaviour
that no claim below depends on.) -/
noncomputable def metricKeyFloat (m : Metrics) (k : String) : Option ℝ :=
  if k = "total_return" then some m.total_return
  else if k = "annual_return" then some m.annual_return
  else if k = "cagr" then some m.cagr
  else if k = "volatility" then some m.volatility
  else if k = "max_drawdown" then some m.max_drawdown
  else if k = "var_95" then some m.var_95
  else if k = "cvar_95" then some m.cvar_95
  else if k = "sharpe_ratio" then some m.sharpe_ratio
  else if k = "sortino_ratio" then some m.sortino_ratio
  else if k = "calmar_ratio" then some m.calmar_ratio
  else if k = "total_trades" then some (m.total_trades : ℝ)
  else if k = "win_rate" then some m.win_rate
  else if k = "avg_win" then some m.avg_win
  else if k = "avg_loss" then some m.avg_loss
  else if k = "avg_trade" then some m.avg_trade
  else none

/-- `metrics.get(optimization_metric, 0)` (`engine.py` line 254). -/
noncomputable def metricsGet (m : Metrics) (k : String) (dflt : ℝ) : ℝ :=
  (metricKeyFloat m k).getD dflt

/-- `best_result['metrics'][optimization_metric]` (`engine.py` line 263):
direct dict indexing, `KeyError` on an unknown metric name. -/
noncomputable def metricsIndex (m : Metrics) (k : String) : Except PyErr ℝ :=
  match metricKeyFloat m k with
  | some v => .ok v
  | none => .error (.keyError k)

/-- The ranked optimization result dict (`engine.py` lines 259-275). -/
structure OptimizationResult (α : Type) where
  best_parameters : Option (List (String × α))
  best_metric_value : ℝ
  optimization_metric : String
  all_results : List (Option (List (String × α)) × Option Metrics)
  total_combinations : ℕ
  status : JobStatus

/-- The collect-and-rank phase of `optimize_parameters` (`engine.py`
lines 249-275), applied to the list of result dicts collected from the
worker futures.  `if not results: raise BacktestError(...)` fires only on
an empty list; then `results.sort(key=lambda x:
x['metrics'].get(optimization_metric, 0), reverse=True)` evaluates its
key on *every* element (Python decorates before sorting), so the first
record without a `'metrics'` key raises `KeyError('metrics')`. -/
noncomputable def optimize_collect {α : Type} (metric : String)
    (total_combinations : ℕ) (results : List (BTResult α)) :
    Except PyErr (OptimizationResult α) :=
  if results.isEmpty then
    .error (.backtestError "No successful optimization runs")
  else do
    let keyed ← results.mapM fun r =>
      match r.metrics with
      | none => Except.error (.keyError "metrics")
      | some m => Except.ok (metricsGet m metric 0, r)
    let ranked := keyed.insertionSort fun a b => b.1 ≤ a.1
    match ranked with
    | [] => .error (.backtestError "No successful optimization runs")
    | best :: _ =>
      match best.2.metrics with
      | none => .error (.keyError "metrics")
      | some m => do
        let bestVal ← metricsIndex m metric
        .ok { best_parameters := best.2.parameters
              best_metric_value := bestVal
              optimization_metric := metric
              all_results := ranked.map fun kr => (kr.2.parameters, kr.2.metrics)
              total_combinations := total_combinations
              status := .completed }

/-- `BacktestEngine.optimize_parameters` (`engine.py` lines 190-282).
Each combination is submitted once to the process pool; a worker runs
`run_backtest`, whose try-block outcome for a combination is given by
`outcome`.  Since `run_backtest` never raises, every future's
`.result()` succeeds and its dict is appended to `results`
(`as_completed` may permute the collection order; no theorem below
depends on the order, because the sort's key evaluation visits every
element). -/
noncomputable def optimize_parameters {α : Type}
    (grid : List (String × List α)) (metric : String) (initial_capital : ℝ)
    (outcome : List (String × α) → Except String RunData) :
    Except PyErr (OptimizationResult α) :=
  let combos := generate_param_combinations grid
  let results := combos.map fun p =>
    run_backtest p initial_capital none (outcome p)
  optimize_collect metric combos.length results

/-- **C3 counterexample.** Python's `str(e)` of a message-less exception
(e.g. `raise Exception()`) is the empty string; the resulting failed
record then carries an *empty* error message, refuting the claim that a
failed record always carries a non-empty one. -/
theorem run_backtest_empty_error_message :
    (run_backtest ([] : List (String × ℤ)) 10000 none (.error "")).status
        = .failed ∧
    (run_backtest ([] : List (String × ℤ)) 10000 none (.error "")).error
        = some "" ∧
    ("" : String).length = 0 :=
  ⟨rfl, rfl, rfl⟩

/-- **C3 (amended).** `run_backtest` always returns a record whose status
is `completed` or `failed` and never raises (the model is total); when the
run fails the record's error field holds exactly the text of the caught
exception — which is non-empty whenever that text is non-empty, but is
not itself guaranteed non-empty. -/
theorem run_backtest_terminal_status {α : Type} (params : List (String × α))
    (cap : ℝ) (bm : Option (List ℝ)) (body : Except String RunData) :
    ((run_backtest params cap bm body).status = .completed ∨
     (run_backtest params cap bm body).status = .failed) ∧
    (∀ e, body = .error e →
      (run_backtest params cap bm body).status = .failed ∧
      (run_backtest params cap bm body).error = some e ∧
      (e ≠ "" → (run_backtest params cap bm body).error ≠ some "")) ∧
    (∀ d, body = .ok d →
      (run_backtest params cap bm body).status = .completed ∧
      (run_backtest params cap bm body).error = none) := by
  cases body with
  | ok d =>
    refine ⟨Or.inl rfl, fun e h => Except.noConfusion h, fun d' _ => ⟨rfl, rfl⟩⟩
  | error e =>
    refine ⟨Or.inr rfl, fun e' h => ?_, fun d h => Except.noConfusion h⟩
    injection h with h'
    subst h'
    exact ⟨rfl, rfl, fun hne hcontra => hne (Option.some.inj hcontra)⟩

/-- Witness for the amended C3 at a concrete failing body. -/
theorem run_backtest_terminal_status_witness :
    (run_backtest [("p", (1 : ℤ))] 10000 none (.error "boom")).status
        = .failed ∧
    (run_backtest [("p", (1 : ℤ))] 10000 none (.error "boom")).error
        = some "boom" := by
  have h := run_backtest_terminal_status [("p", (1 : ℤ))] 10000 none
    (.error "boom")
  exact ⟨(h.2.1 "boom" rfl).1, (h.2.1 "boom" rfl).2.1⟩

end BacktestEngine

namespace BacktestEngine

/-- **C1.** On a two-combination grid where the first combination's run
raises inside the simulation (so `run_backtest` returns a `failed` dict
without a `'metrics'` key) and the second completes, `optimize_parameters`
does not return a completed `OptimizationResult` ranked over the
successful run: the ranking sort's key function indexes `x['metrics']` on
the failed record and the whole job aborts with `KeyError('metrics')`.
The same happens when *all* combinations fail — the collected list is
then nonempty (made of failed dicts), so the `BacktestError` branch is
never reached either.  The last two conjuncts exhibit that the two
submitted combinations really produce one failed and one completed
record. -/
theorem optimize_parameters_keyerror_on_failure :
    optimize_parameters [("p", [(1 : ℤ), 2])] "sharpe_ratio" 10000
        (fun ps => if ps = [("p", (1 : ℤ))] then .error "division by zero"
                   else .ok ⟨0, [], []⟩)
      = .error (.keyError "metrics") ∧
    optimize_parameters [("p", [(1 : ℤ), 2])] "sharpe_ratio" 10000
        (fun _ => .error "division by zero")
      = .error (.keyError "metrics") ∧
    (run_backtest [("p", (1 : ℤ))] 10000 none
        (.error "division by zero")).status = .failed ∧
    (run_backtest [("p", (2 : ℤ))] 10000 none
        (.ok ⟨0, [], []⟩)).status = .completed :=
  ⟨rfl, rfl, rfl, rfl⟩

end BacktestEngine

namespace BacktestEngine

/-- The index-tuple enumeration of a grid with dimension sizes `sizes`:
what `itertools.product(range(a), range(b), ...)` yields. -/
def idxEnum (sizes : List ℕ) : List (List ℕ) :=
  cartProd (sizes.map List.range)

/-- Decode an index tuple into the corresponding selection of grid
values (entry `i` of each dimension, in order). -/
def selectIdx {α : Type} (dflt : α) (ls : List (List α)) (idxs : List ℕ) :
    List α :=
  (ls.zip idxs).map fun p => p.1.getD p.2 dflt

lemma length_cartProd {α : Type} :
    ∀ ls : List (List α), (cartProd ls).length = (ls.map List.length).prod := by
  intro ls
  induction ls with
  | nil => rfl
  | cons l ls ih =>
    show (l.flatMap fun x => (cartProd ls).map (x :: ·)).length = _
    rw [List.length_flatMap]
    simp only [Function.comp_def, List.length_map, List.map_const',
      List.sum_replicate, smul_eq_mul, ih, List.map_cons, List.prod_cons]

lemma sorted_flatMap_of {β : Type} {R : β → β → Prop} :
    ∀ (l : List ℕ) (f : ℕ → List β), List.Pairwise (· < ·) l →
    (∀ i ∈ l, List.Pairwise R (f i)) →
    (∀ i j, i < j → ∀ x ∈ f i, ∀ y ∈ f j, R x y) →
    List.Pairwise R (l.flatMap f)
  | [], f, _, _, _ => by simp only [List.flatMap_nil]; exact List.Pairwise.nil
  | a :: l, f, hl, hf, hc => by
    rw [List.flatMap_cons, List.pairwise_append]
    refine ⟨hf a (List.mem_cons_self a l),
      sorted_flatMap_of l f hl.of_cons
        (fun i hi => hf i (List.mem_cons_of_mem a hi)) hc, ?_⟩
    intro x hx y hy
    obtain ⟨j, hj, hyj⟩ := List.mem_flatMap.mp hy
    exact hc a j (List.rel_of_pairwise_cons hl hj) x hx y hyj

lemma pairwise_lex_idxEnum :
    ∀ sizes : List ℕ, List.Pairwise (List.Lex (· < ·)) (idxEnum sizes)
  | [] => by simp [idxEnum, cartProd]
  | n :: sizes => by
    show List.Pairwise _
      ((List.range n).flatMap fun i => (idxEnum sizes).map (i :: ·))
    refine sorted_flatMap_of _ _ (List.pairwise_lt_range n) ?_ ?_
    · intro i _
      rw [List.pairwise_map]
      exact (pairwise_lex_idxEnum sizes).imp fun h => List.Lex.cons h
    · intro i j hij x hx y hy
      obtain ⟨a, -, rfl⟩ := List.mem_map.mp hx
      obtain ⟨b, -, rfl⟩ := List.mem_map.mp hy
      exact List.Lex.rel hij

lemma map_getD_range {α : Type} (dflt : α) :
    ∀ l : List α, (List.range l.length).map (fun i => l.getD i dflt) = l
  | [] => rfl
  | a :: t => by
    rw [List.length_cons, List.range_succ_eq_map, List.map_cons, List.map_map]
    have hcomp : ((fun i => (a :: t).getD i dflt) ∘ Nat.succ)
        = fun i => t.getD i dflt := funext fun i => List.getD_cons_succ
    rw [List.getD_cons_zero, hcomp, map_getD_range dflt t]

lemma cartProd_eq_decode {α : Type} (dflt : α) :
    ∀ ls : List (List α),
      cartProd ls = (idxEnum (ls.map List.length)).map (selectIdx dflt ls)
  | [] => rfl
  | l :: ls => by
    show (l.flatMap fun x => (cartProd ls).map (x :: ·))
      = ((List.range l.length).flatMap fun i =>
          (idxEnum (ls.map List.length)).map (i :: ·)).map
            (selectIdx dflt (l :: ls))
    rw [List.map_flatMap]
    have hsel : (fun i => ((idxEnum (ls.map List.length)).map (i :: ·)).map
          (selectIdx dflt (l :: ls)))
        = fun i => (cartProd ls).map ((l.getD i dflt) :: ·) := by
      funext i
      rw [List.map_map, cartProd_eq_decode dflt ls, List.map_map]
      rfl
    rw [hsel]
    conv_lhs => rw [← map_getD_range dflt l]
    rw [List.flatMap_map]

lemma mem_cartProd {α : Type} :
    ∀ (ls : List (List α)) (c : List α),
      c ∈ cartProd ls ↔ List.Forall₂ (· ∈ ·) c ls
  | [], c => by
    show c ∈ [[]] ↔ _
    simp [List.forall₂_nil_right_iff]
  | l :: ls, c => by
    show c ∈ (l.flatMap fun x => (cartProd ls).map (x :: ·)) ↔ _
    rw [List.mem_flatMap]
    constructor
    · rintro ⟨x, hx, hc⟩
      obtain ⟨c', hc', rfl⟩ := List.mem_map.mp hc
      exact List.Forall₂.cons hx ((mem_cartProd ls c').mp hc')
    · intro h
      cases h with
      | cons hx hrest =>
        exact ⟨_, hx, List.mem_map.mpr ⟨_, (mem_cartProd ls _).mpr hrest, rfl⟩⟩

lemma nodup_cartProd {α : Type} :
    ∀ ls : List (List α), (∀ l ∈ ls, l.Nodup) → (cartProd ls).Nodup
  | [], _ => by simp [cartProd]
  | l :: ls, h => by
    show (l.flatMap fun x => (cartProd ls).map (x :: ·)).Nodup
    rw [List.nodup_flatMap]
    constructor
    · intro x _
      exact (nodup_cartProd ls fun t ht => h t (List.mem_cons_of_mem l ht)).map
        fun a b hab => by injection hab
    · have hl : l.Nodup := h l (List.mem_cons_self l ls)
      exact hl.imp fun {x y} hne c hc1 hc2 => by
        obtain ⟨c1, -, rfl⟩ := List.mem_map.mp hc1
        obtain ⟨c2, -, heq⟩ := List.mem_map.mp hc2
        exact hne (by injection heq.symm)

lemma zip_inj_right {α : Type} :
    ∀ (ks : List String) (c1 c2 : List α), c1.length = ks.length →
      c2.length = ks.length → ks.zip c1 = ks.zip c2 → c1 = c2
  | [], c1, c2, h1, h2, _ => by
    cases c1 <;> cases c2 <;> simp_all
  | k :: ks, c1, c2, h1, h2, heq => by
    cases c1 with
    | nil => simp at h1
    | cons a c1' =>
      cases c2 with
      | nil => simp at h2
      | cons b c2' =>
        simp only [List.zip_cons_cons, List.cons.injEq, Prod.mk.injEq] at heq
        obtain ⟨⟨-, rfl⟩, heq2⟩ := heq
        rw [zip_inj_right ks c1' c2' (by simpa using h1) (by simpa using h2) heq2]

/-- **C5.** `_generate_param_combinations` expands a grid with dimension
sizes `[a, b, c, ...]` into exactly `a*b*c*...` combinations; the
enumeration is `itertools.product` order, i.e. the lexicographic order on
index tuples over the grid's declared key order (shown by the sortedness
of the index enumeration together with the decode equation), it is a pure
function of the grid (deterministic), and — whenever the value lists are
duplicate-free — no combination dict is produced twice, while every
selection of one value per dimension occurs (membership
characterization).  Each produced combination is submitted exactly once
by `optimize_parameters` (the futures dict is keyed by distinct future
objects, one per list element). -/
theorem param_grid_full_product {α : Type} (grid : List (String × List α))
    (dflt : α) :
    (generate_param_combinations grid).length
        = (grid.map fun kv => kv.2.length).prod ∧
    List.Pairwise (List.Lex (· < ·))
      (idxEnum (grid.map fun kv => kv.2.length)) ∧
    generate_param_combinations grid
        = (idxEnum (grid.map fun kv => kv.2.length)).map
            (fun idxs => (grid.map Prod.fst).zip
              (selectIdx dflt (grid.map Prod.snd) idxs)) ∧
    (∀ combo, combo ∈ cartProd (grid.map Prod.snd) ↔
        List.Forall₂ (· ∈ ·) combo (grid.map Prod.snd)) ∧
    ((∀ kv ∈ grid, kv.2.Nodup) → (generate_param_combinations grid).Nodup) := by
  have hsizes : (grid.map Prod.snd).map List.length
      = grid.map fun kv => kv.2.length := by
    simp [List.map_map, Function.comp_def]
  refine ⟨?_, pairwise_lex_idxEnum _, ?_, fun combo => mem_cartProd _ combo, ?_⟩
  · show ((cartProd (grid.map Prod.snd)).map _).length = _
    rw [List.length_map, length_cartProd, hsizes]
  · show (cartProd (grid.map Prod.snd)).map _ = _
    rw [cartProd_eq_decode dflt, hsizes, List.map_map]
    rfl
  · intro h
    have hc : (cartProd (grid.map Prod.snd)).Nodup :=
      nodup_cartProd _ fun t ht => by
        obtain ⟨kv, hkv, rfl⟩ := List.mem_map.mp ht
        exact h kv hkv
    refine hc.map_on ?_
    intro c1 h1 c2 h2 heq
    have l1 : c1.length = (grid.map Prod.snd).length :=
      ((mem_cartProd _ c1).mp h1).length_eq
    have l2 : c2.length = (grid.map Prod.snd).length :=
      ((mem_cartProd _ c2).mp h2).length_eq
    exact zip_inj_right (grid.map Prod.fst) c1 c2
      (by rw [l1]; simp) (by rw [l2]; simp) heq

/-- Witness for C5 on the concrete grid `{a: [1, 2], b: [10]}`. -/
theorem param_grid_full_product_witness :
    (generate_param_combinations [("a", [(1 : ℤ), 2]), ("b", [10])]).length
        = 2 ∧
    (generate_param_combinations [("a", [(1 : ℤ), 2]), ("b", [10])]).Nodup := by
  have h := param_grid_full_product [("a", [(1 : ℤ), 2]), ("b", [10])] 0
  exact ⟨by rw [h.1]; rfl, h.2.2.2.2 (by decide)⟩

end BacktestEngine

namespace SimulationEngine

/-- One OHLCV bar; only the fields read by the modelled strategy/broker
layer appear (`open` is a Lean keyword, hence `open_price`). -/
structure Bar where
  date : ℕ
  open_price : ℝ
  close : ℝ

/-- A pending order held in `self.order` (`base.py` lines 95, 100). -/
inductive PendingOrder where
  | buy (size : ℝ)
  | sell

/-- The per-run mutable state of a strategy instance plus its simulated
broker: `self.portfolio_values`, `self.dates`, `self.order`
(`base.py` lines 33-36) and the broker's position/cash. -/
structure SimState where
  portfolio_values : List ℝ
  dates : List ℕ
  order : Option PendingOrder
  position : ℝ
  cash : ℝ

/-- `self.broker.getvalue()`: cash plus the position marked at the
current bar's close. -/
noncomputable def getvalue (st : SimState) (bar : Bar) : ℝ :=
  st.cash + st.position * bar.close

/-- `BaseStrategy.next` (`base.py` lines 68-89) for one bar, with the
bar's generated signals supplied by `signals`: the portfolio value and
date are recorded *before* the early return on a pending order; then a
buy order is placed when flat on a buy signal (if the configured position
size is positive, `base.py` lines 91-96), or a close order when in a
position on a sell signal. -/
noncomputable def strategyNext (position_size : ℝ)
    (signals : Bar → Bool × Bool) (st : SimState) (bar : Bar) : SimState :=
  let st1 := { st with
    portfolio_values := st.portfolio_values ++ [getvalue st bar]
    dates := st.dates ++ [bar.date] }
  if st1.order.isSome then st1
  else if (signals bar).1 ∧ st1.position = 0 then
    if 0 < position_size then { st1 with order := some (.buy position_size) }
    else st1
  else if (signals bar).2 ∧ st1.position ≠ 0 then
    { st1 with order := some .sell }
  else st1

/-- Modelled from the spec: the bar replay loop and order execution live
in the external `backtrader` library (`cerebro.run()`), not in this
repository's sources.  Following spec §4.1, a pending order is executed
at the next bar's open price with commission `rate × notional` deducted
from cash, and a sell closes the whole position. -/
noncomputable def brokerFill (commission : ℝ) (st : SimState) (bar : Bar) :
    SimState :=
  match st.order with
  | none => st
  | some (.buy size) =>
    { st with
        order := none
        position := st.position + size
        cash := st.cash - size * bar.open_price
          - commission * (size * bar.open_price) }
  | some .sell =>
    { st with
        order := none
        position := 0
        cash := st.cash + st.position * bar.open_price
          - commission * (st.position * bar.open_price) }

/-- Modelled from the spec (§4.2): one bar of the replay — resolve any
pending order at this bar's open, then call the strategy's `next`. -/
noncomputable def simStep (commission position_size : ℝ)
    (signals : Bar → Bool × Bool) (st : SimState) (bar : Bar) : SimState :=
  strategyNext position_size signals (brokerFill commission st bar) bar

/-- Modelled from the spec (§4.2): replay every bar in order from the
initial idle state with the configured starting capital. -/
noncomputable def runSim (commission position_size initial_capital : ℝ)
    (signals : Bar → Bool × Bool) (bars : List Bar) : SimState :=
  bars.foldl (simStep commission position_size signals)
    { portfolio_values := []
      dates := []
      order := none
      position := 0
      cash := initial_capital }

lemma brokerFill_portfolio_values (commission : ℝ) (st : SimState)
    (bar : Bar) :
    (brokerFill commission st bar).portfolio_values = st.portfolio_values := by
  unfold brokerFill
  cases st.order with
  | none => rfl
  | some o => cases o <;> rfl

lemma strategyNext_length (position_size : ℝ) (signals : Bar → Bool × Bool)
    (st : SimState) (bar : Bar) :
    (strategyNext position_size signals st bar).portfolio_values.length
      = st.portfolio_values.length + 1 := by
  unfold strategyNext
  simp only [apply_ite (fun s : SimState => s.portfolio_values.length)]
  simp

/-- **C10.** The recorded equity-point sequence has exactly one entry per
bar of the replayed series: `next` appends exactly one portfolio value
per invocation (before any early return), order execution never touches
the recorded values, and the loop calls the strategy once per bar. -/
theorem equity_points_one_per_bar (commission position_size initial_capital : ℝ)
    (signals : Bar → Bool × Bool) (bars : List Bar) :
    (runSim commission position_size initial_capital signals
        bars).portfolio_values.length = bars.length := by
  have key : ∀ (bs : List Bar) (st : SimState),
      ((bs.foldl (simStep commission position_size signals)
          st).portfolio_values.length)
        = st.portfolio_values.length + bs.length := by
    intro bs
    induction bs with
    | nil => intro st; simp
    | cons b rest ih =>
      intro st
      rw [List.foldl_cons, ih]
      have hstep : (simStep commission position_size signals
          st b).portfolio_values.length = st.portfolio_values.length + 1 := by
        unfold simStep
        rw [strategyNext_length, brokerFill_portfolio_values]
      rw [hstep]
      simp only [List.length_cons]
      omega
  have h := key bars
    { portfolio_values := []
      dates := []
      order := none
      position := 0
      cash := initial_capital }
  simpa [runSim] using h

end SimulationEngine

namespace BacktestCache

/-!
Embedding of `BacktestCache.generate_cache_key` (`src/app/utils/cache.py`
lines 246-274).  Strategy parameters are numeric in this repository
(periods, thresholds), so parameter values are modelled as integers;
`json.dumps(parameters, sort_keys=True)` is embedded as serialization of
the key-sorted association list with Python's default separators
(`', '` and `': '`).  String escaping covers the quote/backslash/control
escapes relevant to injectivity; `md5` is the real MD5 compression over
the UTF-8 bytes of the composed key string.
-/

/-- A decimal digit character. -/
def digitChar : ℕ → Char
  | 0 => '0' | 1 => '1' | 2 => '2' | 3 => '3' | 4 => '4'
  | 5 => '5' | 6 => '6' | 7 => '7' | 8 => '8' | _ => '9'

lemma digitChar_isDigit (d : ℕ) : (digitChar d).isDigit = true := by
  rcases d with _|_|_|_|_|_|_|_|_|d <;> rfl

/-- The numeric value of a digit character. -/
def digitVal (c : Char) : ℕ := c.toNat - 48

lemma digitVal_digitChar (d : ℕ) (h : d < 10) : digitVal (digitChar d) = d := by
  interval_cases d <;> rfl

/-- Decimal representation of a natural number (what `json.dumps` prints
for a non-negative int). -/
def natStr (n : ℕ) : List Char :=
  if h : n < 10 then [digitChar n]
  else natStr (n / 10) ++ [digitChar (n % 10)]
termination_by n
decreasing_by exact Nat.div_lt_self (by omega) (by omega)

lemma natStr_ne_nil (n : ℕ) : natStr n ≠ [] := by
  unfold natStr
  split <;> simp

lemma natStr_digits (n : ℕ) : ∀ c ∈ natStr n, c.isDigit = true := by
  induction n using Nat.strong_induction_on with
  | _ n ih =>
    unfold natStr
    split
    · intro c hc
      simp only [List.mem_singleton] at hc
      exact hc ▸ digitChar_isDigit n
    · intro c hc
      rcases List.mem_append.mp hc with h | h
      · exact ih (n / 10) (Nat.div_lt_self (by omega) (by omega)) c h
      · simp only [List.mem_singleton] at h
        exact h ▸ digitChar_isDigit (n % 10)

lemma natStr_foldl (n : ℕ) : ∀ acc : ℕ,
    (natStr n).foldl (fun a c => 10 * a + digitVal c) acc
      = acc * 10 ^ (natStr n).length + n := by
  induction n using Nat.strong_induction_on with
  | _ n ih =>
    intro acc
    unfold natStr
    split
    · next h =>
      simp [List.foldl, digitVal_digitChar n h]
      ring
    · next h =>
      rw [List.foldl_append, ih (n / 10) (Nat.div_lt_self (by omega) (by omega)) acc]
      simp only [List.foldl, List.length_append, List.length_singleton]
      rw [digitVal_digitChar (n % 10) (Nat.mod_lt n (by omega))]
      have hpow : acc * 10 ^ ((natStr (n / 10)).length + 1)
          = (acc * 10 ^ (natStr (n / 10)).length) * 10 := by ring
      rw [hpow]
      omega

lemma natStr_inj {m n : ℕ} (h : natStr m = natStr n) : m = n := by
  have hm := natStr_foldl m 0
  have hn := natStr_foldl n 0
  rw [h] at hm
  omega

/-- Decimal representation of an integer (what `json.dumps` prints). -/
def intStr (v : ℤ) : List Char :=
  if v < 0 then '-' :: natStr v.natAbs else natStr v.natAbs

/-- `r` is empty or starts with a non-digit character: the shape of
everything that can follow a serialized number inside a JSON object. -/
def headNotDigit : List Char → Prop
  | [] => True
  | c :: _ => c.isDigit = false

lemma digits_chain : ∀ (d1 d2 r1 r2 : List Char),
    (∀ c ∈ d1, c.isDigit = true) → (∀ c ∈ d2, c.isDigit = true) →
    d1 ≠ [] → d2 ≠ [] → headNotDigit r1 → headNotDigit r2 →
    d1 ++ r1 = d2 ++ r2 → d1 = d2 ∧ r1 = r2
  | [], _, _, _, _, _, h1, _, _, _, _ => absurd rfl h1
  | _ :: _, [], _, _, _, _, _, h2, _, _, _ => absurd rfl h2
  | a :: d1', b :: d2', r1, r2, hd1, hd2, _, _, hr1, hr2, heq => by
    simp only [List.cons_append, List.cons.injEq] at heq
    obtain ⟨rfl, heq'⟩ := heq
    match d1', d2', heq' with
    | [], [], heq' => exact ⟨rfl, heq'⟩
    | [], x :: xs, heq' =>
      exfalso
      have hr : r1 = x :: (xs ++ r2) := by simpa using heq'
      rw [hr] at hr1
      have hx : x.isDigit = true := hd2 x (by simp)
      simp only [headNotDigit] at hr1
      simp [hx] at hr1
    | x :: xs, [], heq' =>
      exfalso
      have hr : r2 = x :: (xs ++ r1) := by simpa using heq'.symm
      rw [hr] at hr2
      have hx : x.isDigit = true := hd1 x (by simp)
      simp only [headNotDigit] at hr2
      simp [hx] at hr2
    | x :: xs, y :: ys, heq' =>
      have := digits_chain (x :: xs) (y :: ys) r1 r2
        (fun c hc => hd1 c (by simp [hc])) (fun c hc => hd2 c (by simp [hc]))
        (by simp) (by simp) hr1 hr2 heq'
      exact ⟨by rw [this.1], this.2⟩

lemma intStr_chain {v1 v2 : ℤ} {r1 r2 : List Char}
    (hr1 : headNotDigit r1) (hr2 : headNotDigit r2)
    (heq : intStr v1 ++ r1 = intStr v2 ++ r2) : v1 = v2 ∧ r1 = r2 := by
  unfold intStr at heq
  by_cases h1 : v1 < 0 <;> by_cases h2 : v2 < 0 <;>
    simp only [h1, h2, if_pos, if_neg, if_true, if_false, List.cons_append] at heq
  · -- both negative
    simp only [List.cons.injEq] at heq
    have := digits_chain _ _ r1 r2 (natStr_digits _) (natStr_digits _)
      (natStr_ne_nil _) (natStr_ne_nil _) hr1 hr2 heq.2
    refine ⟨?_, this.2⟩
    have := natStr_inj this.1
    omega
  · -- v1 < 0 ≤ v2: heads differ ('-' vs a digit)
    exfalso
    rcases hns : natStr v2.natAbs with _ | ⟨c, t⟩
    · exact natStr_ne_nil _ hns
    · rw [hns, List.cons_append, List.cons.injEq] at heq
      have hc : c.isDigit = true := natStr_digits _ c (by rw [hns]; simp)
      rw [← heq.1] at hc
      simp at hc
  · -- v2 < 0 ≤ v1
    exfalso
    rcases hns : natStr v1.natAbs with _ | ⟨c, t⟩
    · exact natStr_ne_nil _ hns
    · rw [hns, List.cons_append, List.cons.injEq] at heq
      have hc : c.isDigit = true := natStr_digits _ c (by rw [hns]; simp)
      rw [heq.1] at hc
      simp at hc
  · -- both non-negative
    have := digits_chain _ _ r1 r2 (natStr_digits _) (natStr_digits _)
      (natStr_ne_nil _) (natStr_ne_nil _) hr1 hr2 heq
    refine ⟨?_, this.2⟩
    have := natStr_inj this.1
    omega

end BacktestCache

namespace BacktestCache

/-- JSON string escaping for one character (`json.dumps` escapes the
quote, the backslash and the common control characters; the remaining
control-character and `ensure_ascii` escapes are irrelevant to the keys
exercised here and are left verbatim). -/
def escChar (c : Char) : List Char :=
  if c = '"' then ['\\', '"']
  else if c = '\\' then ['\\', '\\']
  else if c = '\n' then ['\\', 'n']
  else if c = '\t' then ['\\', 't']
  else if c = '\r' then ['\\', 'r']
  else [c]

/-- JSON string escaping. -/
def escape (s : List Char) : List Char := s.flatMap escChar

/-- One `"key": value` entry of `json.dumps` output (default `': '`
separator). -/
def entryStr (kv : String × ℤ) : List Char :=
  '"' :: escape kv.1.data ++ '"' :: ':' :: ' ' :: intStr kv.2

/-- The comma-joined entry list of `json.dumps` output (default `', '`
separator). -/
def entriesStr : List (String × ℤ) → List Char
  | [] => []
  | [kv] => entryStr kv
  | kv :: rest => entryStr kv ++ ',' :: ' ' :: entriesStr rest

/-- `sort_keys=True`: the entries in ascending key order (Python sorts
strings by code point, as Lean's `String` order does). -/
def sortParams (ps : List (String × ℤ)) : List (String × ℤ) :=
  ps.insertionSort fun a b => a.1 ≤ b.1

/-- `json.dumps(parameters, sort_keys=True)` (`cache.py` line 268). -/
def dumpsCanon (ps : List (String × ℤ)) : List Char :=
  '\x7b' :: entriesStr (sortParams ps) ++ ['\x7d']

instance : IsTotal (String × ℤ) (fun a b => a.1 ≤ b.1) :=
  ⟨fun a b => le_total a.1 b.1⟩

instance : IsTrans (String × ℤ) (fun a b => a.1 ≤ b.1) :=
  ⟨fun _ _ _ h1 h2 => le_trans h1 h2⟩

/-- Cancelling the identical `"key": ` prefix of two entries with the
same key exposes the serialized values. -/
lemma entry_cancel {k : String} {v1 v2 : ℤ} {s1 s2 : List Char}
    (h : entryStr (k, v1) ++ s1 = entryStr (k, v2) ++ s2) :
    intStr v1 ++ s1 = intStr v2 ++ s2 := by
  simp only [entryStr, List.cons_append, List.append_assoc,
    List.cons.injEq, true_and] at h
  have h2 := List.append_cancel_left h
  simpa using h2

lemma entriesStr_chain :
    ∀ (l1 l2 : List (String × ℤ)) (t1 t2 : List Char),
      l1.map Prod.fst = l2.map Prod.fst →
      headNotDigit t1 → headNotDigit t2 →
      entriesStr l1 ++ t1 = entriesStr l2 ++ t2 →
      l1 = l2 ∧ t1 = t2
  | [], [], t1, t2, _, _, _, heq => ⟨rfl, by simpa using heq⟩
  | [], _ :: _, _, _, hkeys, _, _, _ => by simp at hkeys
  | _ :: _, [], _, _, hkeys, _, _, _ => by simp at hkeys
  | [(k1, v1)], [(k2, v2)], t1, t2, hkeys, ht1, ht2, heq => by
    simp only [List.map_cons, List.map_nil, List.cons.injEq, and_true] at hkeys
    subst hkeys
    simp only [entriesStr] at heq
    obtain ⟨hv, ht⟩ := intStr_chain ht1 ht2 (entry_cancel heq)
    exact ⟨by rw [hv], ht⟩
  | [(k1, v1)], (k2, v2) :: kv :: rest, t1, t2, hkeys, _, _, _ => by
    have hlen := congrArg List.length hkeys
    simp at hlen
  | (k1, v1) :: kv :: rest, [(k2, v2)], t1, t2, hkeys, _, _, _ => by
    have hlen := congrArg List.length hkeys
    simp at hlen
  | (k1, v1) :: x :: xs, (k2, v2) :: y :: ys, t1, t2, hkeys, ht1, ht2, heq => by
    simp only [List.map_cons, List.cons.injEq] at hkeys
    obtain ⟨rfl, hkeys'⟩ := hkeys
    simp only [entriesStr, List.append_assoc] at heq
    have hmid := entry_cancel heq
    obtain ⟨hv, hrest⟩ := intStr_chain (by exact rfl) (by exact rfl) hmid
    simp only [List.cons_append, List.cons.injEq, true_and] at hrest
    have := entriesStr_chain (x :: xs) (y :: ys) t1 t2
      (by simpa using hkeys') ht1 ht2 hrest
    exact ⟨by rw [hv, this.1], this.2⟩

end BacktestCache

namespace BacktestCache

/-- Two key-sorted association lists with duplicate-free keys that are
permutations of each other are equal: the canonical (sorted) form of a
parameter mapping is unique. -/
lemma sorted_keys_perm_eq :
    ∀ (l1 l2 : List (String × ℤ)), l1.Perm l2 →
      l1.Pairwise (fun a b => a.1 ≤ b.1) →
      l2.Pairwise (fun a b => a.1 ≤ b.1) →
      (l1.map Prod.fst).Nodup → l1 = l2
  | [], l2, hp, _, _, _ => (hp.symm.eq_nil).symm ▸ rfl
  | a :: t1, l2, hp, hs1, hs2, hnd => by
    cases l2 with
    | nil => exact absurd hp.eq_nil (by simp)
    | cons b t2 =>
      have hab : a = b := by
        have hbmem : b ∈ a :: t1 := hp.symm.subset (List.mem_cons_self b t2)
        have hamem : a ∈ b :: t2 := hp.subset (List.mem_cons_self a t1)
        have h1 : a.1 ≤ b.1 := by
          rcases List.mem_cons.mp hbmem with h | h
          · rw [h]
          · exact List.rel_of_pairwise_cons hs1 h
        have h2 : b.1 ≤ a.1 := by
          rcases List.mem_cons.mp hamem with h | h
          · rw [h]
          · exact List.rel_of_pairwise_cons hs2 h
        have hkey : a.1 = b.1 := le_antisymm h1 h2
        rcases List.mem_cons.mp hbmem with h | h
        · exact h.symm
        · exfalso
          have : a.1 ∈ t1.map Prod.fst := hkey ▸ List.mem_map_of_mem Prod.fst h
          simp only [List.map_cons, List.nodup_cons] at hnd
          exact hnd.1 this
      subst hab
      have htail := sorted_keys_perm_eq t1 t2 hp.cons_inv hs1.of_cons hs2.of_cons
        (by simp only [List.map_cons, List.nodup_cons] at hnd; exact hnd.2)
      rw [htail]

end BacktestCache

namespace BacktestCache

/-- Truncation to a 32-bit word. -/
def w32 (x : ℕ) : ℕ := x % 4294967296

/-- 32-bit bitwise complement. -/
def bnot32 (x : ℕ) : ℕ := 4294967295 - w32 x

/-- 32-bit left rotation. -/
def rotl32 (x s : ℕ) : ℕ := w32 (w32 x * 2 ^ s) + w32 x / 2 ^ (32 - s)

/-- The MD5 sine-derived constant table (RFC 1321). -/
def md5K : List ℕ :=
  [0xd76aa478, 0xe8c7b756, 0x242070db, 0xc1bdceee,
   0xf57c0faf, 0x4787c62a, 0xa8304613, 0xfd469501,
   0x698098d8, 0x8b44f7af, 0xffff5bb1, 0x895cd7be,
   0x6b901122, 0xfd987193, 0xa679438e, 0x49b40821,
   0xf61e2562, 0xc040b340, 0x265e5a51, 0xe9b6c7aa,
   0xd62f105d, 0x02441453, 0xd8a1e681, 0xe7d3fbc8,
   0x21e1cde6, 0xc33707d6, 0xf4d50d87, 0x455a14ed,
   0xa9e3e905, 0xfcefa3f8, 0x676f02d9, 0x8d2a4c8a,
   0xfffa3942, 0x8771f681, 0x6d9d6122, 0xfde5380c,
   0xa4beea44, 0x4bdecfa9, 0xf6bb4b60, 0xbebfbc70,
   0x289b7ec6, 0xeaa127fa, 0xd4ef3085, 0x04881d05,
   0xd9d4d039, 0xe6db99e5, 0x1fa27cf8, 0xc4ac5665,
   0xf4292244, 0x432aff97, 0xab9423a7, 0xfc93a039,
   0x655b59c3, 0x8f0ccc92, 0xffeff47d, 0x85845dd1,
   0x6fa87e4f, 0xfe2ce6e0, 0xa3014314, 0x4e0811a1,
   0xf7537e82, 0xbd3af235, 0x2ad7d2bb, 0xeb86d391]

/-- The MD5 per-operation rotation amounts (RFC 1321). -/
def md5S : List ℕ :=
  [7, 12, 17, 22, 7, 12, 17, 22, 7, 12, 17, 22, 7, 12, 17, 22,
   5, 9, 14, 20, 5, 9, 14, 20, 5, 9, 14, 20, 5, 9, 14, 20,
   4, 11, 16, 23, 4, 11, 16, 23, 4, 11, 16, 23, 4, 11, 16, 23,
   6, 10, 15, 21, 6, 10, 15, 21, 6, 10, 15, 21, 6, 10, 15, 21]

/-- The four MD5 round functions. -/
def mF (b c d : ℕ) : ℕ := (b &&& c) ||| (bnot32 b &&& d)

def mG (b c d : ℕ) : ℕ := (d &&& b) ||| (bnot32 d &&& c)

def mH (b c d : ℕ) : ℕ := b ^^^ (c ^^^ d)

def mI (b c d : ℕ) : ℕ := c ^^^ (b ||| bnot32 d)

/-- The MD5 working state: four 32-bit words. -/
structure MD5State where
  a : ℕ
  b : ℕ
  c : ℕ
  d : ℕ

/-- The 64-bit little-endian message-length trailer. -/
def lenBytes (n : ℕ) : List ℕ :=
  (List.range 8).map fun i => n / 2 ^ (8 * i) % 256

/-- MD5 padding: append `0x80`, zero-pad to 56 mod 64, then the bit
length as a 64-bit little-endian quantity. -/
def md5Pad (msg : List ℕ) : List ℕ :=
  msg ++ 0x80 :: List.replicate ((119 - msg.length % 64) % 64) 0
    ++ lenBytes (8 * msg.length % 2 ^ 64)

/-- Word `g` of a 64-byte chunk, little-endian. -/
def chunkWord (chunk : List ℕ) (g : ℕ) : ℕ :=
  chunk.getD (4 * g) 0 % 256 + 256 * (chunk.getD (4 * g + 1) 0 % 256)
    + 65536 * (chunk.getD (4 * g + 2) 0 % 256)
    + 16777216 * (chunk.getD (4 * g + 3) 0 % 256)

/-- One of the 64 MD5 operations. -/
def md5Round (M : ℕ → ℕ) (st : MD5State) (i : ℕ) : MD5State :=
  let fg : ℕ × ℕ :=
    if i < 16 then (mF st.b st.c st.d, i)
    else if i < 32 then (mG st.b st.c st.d, (5 * i + 1) % 16)
    else if i < 48 then (mH st.b st.c st.d, (3 * i + 5) % 16)
    else (mI st.b st.c st.d, (7 * i) % 16)
  let tmp := w32 (st.a + fg.1 + md5K.getD i 0 + M fg.2)
  { a := st.d
    b := w32 (st.b + rotl32 tmp (md5S.getD i 0))
    c := st.b
    d := st.c }

/-- Process one 64-byte chunk. -/
def md5Chunk (st : MD5State) (chunk : List ℕ) : MD5State :=
  let r := (List.range 64).foldl (md5Round (chunkWord chunk)) st
  { a := w32 (st.a + r.a)
    b := w32 (st.b + r.b)
    c := w32 (st.c + r.c)
    d := w32 (st.d + r.d) }

/-- Split into 64-byte chunks. -/
def chunks64 (l : List ℕ) : List (List ℕ) :=
  if h : l = [] then [] else l.take 64 :: chunks64 (l.drop 64)
termination_by l.length
decreasing_by
  have := List.length_pos.mpr h
  simp only [List.length_drop]
  omega

def md5Init : MD5State :=
  { a := 0x67452301, b := 0xefcdab89, c := 0x98badcfe, d := 0x10325476 }

/-- MD5 of a byte sequence, as the four-word final state. -/
def md5Bytes (msg : List ℕ) : MD5State :=
  (chunks64 (md5Pad msg)).foldl md5Chunk md5Init

/-- The 128-bit MD5 digest as a little-endian natural number (byte `j`
of the digest is `md5Nat msg / 2 ^ (8 * j) % 256`, matching the byte
order of Python's `hexdigest`). -/
def md5Nat (msg : List ℕ) : ℕ :=
  w32 (md5Bytes msg).a + 4294967296 * w32 (md5Bytes msg).b
    + 18446744073709551616 * w32 (md5Bytes msg).c
    + 79228162514264337593543950336 * w32 (md5Bytes msg).d

lemma md5Nat_lt (msg : List ℕ) : md5Nat msg < 2 ^ 128 := by
  unfold md5Nat
  have h1 : w32 (md5Bytes msg).a < 4294967296 := Nat.mod_lt _ (by norm_num)
  have h2 : w32 (md5Bytes msg).b < 4294967296 := Nat.mod_lt _ (by norm_num)
  have h3 : w32 (md5Bytes msg).c < 4294967296 := Nat.mod_lt _ (by norm_num)
  have h4 : w32 (md5Bytes msg).d < 4294967296 := Nat.mod_lt _ (by norm_num)
  omega

/-- The digest in the 128-bit value space (pigeonhole target). -/
def md5Fin (msg : List ℕ) : Fin (2 ^ 128) := ⟨md5Nat msg, md5Nat_lt msg⟩

/-- UTF-8 encoding of one character (`key_data.encode()`). -/
def charUTF8 (c : Char) : List ℕ :=
  let n := c.toNat
  if n < 128 then [n]
  else if n < 2048 then [192 + n / 64, 128 + n % 64]
  else if n < 65536 then [224 + n / 4096, 128 + n / 64 % 64, 128 + n % 64]
  else [240 + n / 262144, 128 + n / 4096 % 64, 128 + n / 64 % 64,
    128 + n % 64]

/-- UTF-8 encoding of a character sequence. -/
def strBytes (s : List Char) : List ℕ := s.flatMap charUTF8

/-- Lowercase hexadecimal digit. -/
def hexChar : ℕ → Char
  | 0 => '0' | 1 => '1' | 2 => '2' | 3 => '3' | 4 => '4' | 5 => '5'
  | 6 => '6' | 7 => '7' | 8 => '8' | 9 => '9' | 10 => 'a' | 11 => 'b'
  | 12 => 'c' | 13 => 'd' | 14 => 'e' | _ => 'f'

/-- Two hex digits of one byte, high nibble first. -/
def hexByte (b : ℕ) : List Char := [hexChar (b / 16 % 16), hexChar (b % 16)]

/-- `hexdigest()`: 32 lowercase hex characters, digest bytes in order. -/
def hexDigest (n : ℕ) : List Char :=
  ((List.range 16).map fun i => hexByte (n / 2 ^ (8 * i) % 256)).flatten

lemma hexDigest_length (n : ℕ) : (hexDigest n).length = 32 := by
  rw [hexDigest, List.length_flatten, List.map_map]
  have hc : (List.length ∘ fun i => hexByte (n / 2 ^ (8 * i) % 256))
      = fun _ => 2 := funext fun i => rfl
  rw [hc, List.map_const', List.sum_replicate]
  simp

/-- `key_data = f"{strategy}:{symbol}:{start_date}:{end_date}:{param_str}"`
(`cache.py` line 271), as a character sequence. -/
def keyData (strategy symbol start_date end_date : String)
    (parameters : List (String × ℤ)) : List Char :=
  strategy.data ++ ':' :: symbol.data ++ ':' :: start_date.data
    ++ ':' :: end_date.data ++ ':' :: dumpsCanon parameters

/-- `BacktestCache.generate_cache_key` (`cache.py` lines 246-274):
`f"backtest:{strategy}:{symbol}:{md5(key_data).hexdigest()}"`. -/
def generate_cache_key (strategy symbol start_date end_date : String)
    (parameters : List (String × ℤ)) : String :=
  String.mk ("backtest:".data ++ strategy.data ++ ':' :: symbol.data
    ++ ':' :: hexDigest (md5Nat (strBytes
      (keyData strategy symbol start_date end_date parameters))))

end BacktestCache

namespace BacktestCache

lemma string_data_inj {s t : String} (h : s.data = t.data) : s = t := by
  cases s; cases t; exact congrArg String.mk h

/-- **C4 counterexample.** The fingerprint's only dependence on the start
and end dates (and on the parameter values) is through the 128-bit MD5
digest, and a function from the infinitely many date strings into a
128-bit value space cannot be injective: two *distinct* end dates with
the *same* fingerprint exist (all other inputs held fixed and concrete).
Hence "changing the date range ... yields a different fingerprint" is
false as a universal statement. -/
theorem generate_cache_key_digest_collision :
    ∃ d1 d2 : String, d1 ≠ d2 ∧
      generate_cache_key "rsi" "BTCUSDT" "2024-01-01" d1 [("rsi_period", 14)]
        = generate_cache_key "rsi" "BTCUSDT" "2024-01-01" d2
            [("rsi_period", 14)] := by
  obtain ⟨d1, d2, hne, heq⟩ := Finite.exists_ne_map_eq_of_infinite
    fun d : String => md5Fin (strBytes
      (keyData "rsi" "BTCUSDT" "2024-01-01" d [("rsi_period", 14)]))
  refine ⟨d1, d2, hne, ?_⟩
  have hmd5 : md5Nat (strBytes
        (keyData "rsi" "BTCUSDT" "2024-01-01" d1 [("rsi_period", 14)]))
      = md5Nat (strBytes
        (keyData "rsi" "BTCUSDT" "2024-01-01" d2 [("rsi_period", 14)])) :=
    congrArg Fin.val heq
  unfold generate_cache_key
  rw [hmd5]

/-- **C4 (amended).** The fingerprint is a pure function of
(strategy, symbol, start date, end date, parameter mapping) with:
(i) equal parameter mappings (same key-value pairs in any insertion
order, duplicate-free keys) give the identical fingerprint;
(ii)/(iii) changing the strategy name or the symbol always changes the
fingerprint (both appear in plain text in the key);
(iv) changing the start or end date changes the hashed input string
`key_data` (the fingerprint then differs whenever the two 128-bit digests
differ — guaranteed distinctness is impossible, see the collision
theorem);
(v) changing any parameter value (same key set) likewise changes the
hashed input string. -/
theorem generate_cache_key_properties :
    (∀ (st sym sd ed : String) (p1 p2 : List (String × ℤ)),
      p1.Perm p2 → (p1.map Prod.fst).Nodup →
      generate_cache_key st sym sd ed p1
        = generate_cache_key st sym sd ed p2) ∧
    (∀ (st1 st2 sym sd ed : String) (p : List (String × ℤ)), st1 ≠ st2 →
      generate_cache_key st1 sym sd ed p
        ≠ generate_cache_key st2 sym sd ed p) ∧
    (∀ (st sym1 sym2 sd ed : String) (p : List (String × ℤ)), sym1 ≠ sym2 →
      generate_cache_key st sym1 sd ed p
        ≠ generate_cache_key st sym2 sd ed p) ∧
    (∀ (st sym sd1 sd2 ed : String) (p : List (String × ℤ)), sd1 ≠ sd2 →
      keyData st sym sd1 ed p ≠ keyData st sym sd2 ed p) ∧
    (∀ (st sym sd ed1 ed2 : String) (p : List (String × ℤ)), ed1 ≠ ed2 →
      keyData st sym sd ed1 p ≠ keyData st sym sd ed2 p) ∧
    (∀ (st sym sd ed : String) (p1 p2 : List (String × ℤ)),
      (sortParams p1).map Prod.fst = (sortParams p2).map Prod.fst →
      sortParams p1 ≠ sortParams p2 →
      keyData st sym sd ed p1 ≠ keyData st sym sd ed p2) := by
  refine ⟨?_, ?_, ?_, ?_, ?_, ?_⟩
  · -- (i) order-independence
    intro st sym sd ed p1 p2 hperm hnd
    have hsort : sortParams p1 = sortParams p2 := by
      apply sorted_keys_perm_eq
      · exact (List.perm_insertionSort _ p1).trans
          (hperm.trans (List.perm_insertionSort _ p2).symm)
      · exact List.sorted_insertionSort _ p1
      · exact List.sorted_insertionSort _ p2
      · have hp : ((sortParams p1).map Prod.fst).Perm (p1.map Prod.fst) :=
          (List.perm_insertionSort _ p1).map _
        exact hp.nodup_iff.mpr hnd
    unfold generate_cache_key keyData dumpsCanon
    rw [hsort]
  · -- (ii) strategy in plain text
    intro st1 st2 sym sd ed p hne heq
    unfold generate_cache_key at heq
    injection heq with hL
    simp only [List.append_assoc, List.cons_append, List.nil_append,
      List.cons.injEq, eq_self_iff_true, true_and] at hL
    have hA := hL
    have hlen : (':' :: (sym.data ++ ':' :: hexDigest (md5Nat (strBytes
          (keyData st1 sym sd ed p))))).length
        = (':' :: (sym.data ++ ':' :: hexDigest (md5Nat (strBytes
          (keyData st2 sym sd ed p))))).length := by
      simp [hexDigest_length]
    exact hne (string_data_inj (List.append_inj' hA hlen).1)
  · -- (iii) symbol in plain text
    intro st sym1 sym2 sd ed p hne heq
    unfold generate_cache_key at heq
    injection heq with hL
    simp only [List.append_assoc, List.cons_append, List.nil_append,
      List.cons.injEq, eq_self_iff_true, true_and] at hL
    have hA := List.append_cancel_left hL
    have hB : sym1.data ++ ':' :: hexDigest (md5Nat (strBytes
          (keyData st sym1 sd ed p)))
        = sym2.data ++ ':' :: hexDigest (md5Nat (strBytes
          (keyData st sym2 sd ed p))) := by
      injection hA
    have hlen : (':' :: hexDigest (md5Nat (strBytes
          (keyData st sym1 sd ed p)))).length
        = (':' :: hexDigest (md5Nat (strBytes
          (keyData st sym2 sd ed p)))).length := by
      simp [hexDigest_length]
    exact hne (string_data_inj (List.append_inj' hB hlen).1)
  · -- (iv-a) start date changes the hashed input
    intro st sym sd1 sd2 ed p hne heq
    unfold keyData at heq
    simp only [List.append_assoc, List.cons_append] at heq
    have h1 := List.append_cancel_left heq
    have h2 : sym.data ++ ':' :: (sd1.data ++ ':' :: (ed.data
          ++ ':' :: dumpsCanon p))
        = sym.data ++ ':' :: (sd2.data ++ ':' :: (ed.data
          ++ ':' :: dumpsCanon p)) := by
      have := congrArg List.tail h1
      simpa using this
    have h3 := List.append_cancel_left h2
    have h4 : sd1.data ++ ':' :: (ed.data ++ ':' :: dumpsCanon p)
        = sd2.data ++ ':' :: (ed.data ++ ':' :: dumpsCanon p) := by
      have := congrArg List.tail h3
      simpa using this
    exact hne (string_data_inj (List.append_inj' h4 rfl).1)
  · -- (iv-b) end date changes the hashed input
    intro st sym sd ed1 ed2 p hne heq
    unfold keyData at heq
    simp only [List.append_assoc, List.cons_append] at heq
    have h1 := List.append_cancel_left heq
    have h2 : sym.data ++ ':' :: (sd.data ++ ':' :: (ed1.data
          ++ ':' :: dumpsCanon p))
        = sym.data ++ ':' :: (sd.data ++ ':' :: (ed2.data
          ++ ':' :: dumpsCanon p)) := by
      have := congrArg List.tail h1
      simpa using this
    have h3 := List.append_cancel_left h2
    have h4 : sd.data ++ ':' :: (ed1.data ++ ':' :: dumpsCanon p)
        = sd.data ++ ':' :: (ed2.data ++ ':' :: dumpsCanon p) := by
      have := congrArg List.tail h3
      simpa using this
    have h5 := List.append_cancel_left h4
    have h6 : ed1.data ++ ':' :: dumpsCanon p
        = ed2.data ++ ':' :: dumpsCanon p := by
      have := congrArg List.tail h5
      simpa using this
    exact hne (string_data_inj (List.append_inj' h6 rfl).1)
  · -- (v) a parameter value change alters the hashed input
    intro st sym sd ed p1 p2 hkeys hdiff heq
    unfold keyData at heq
    simp only [List.append_assoc, List.cons_append] at heq
    have h1 := List.append_cancel_left heq
    have h2 := List.append_cancel_left (by
      have := congrArg List.tail h1
      simpa using this :
        sym.data ++ ':' :: (sd.data ++ ':' :: (ed.data
            ++ ':' :: dumpsCanon p1))
          = sym.data ++ ':' :: (sd.data ++ ':' :: (ed.data
            ++ ':' :: dumpsCanon p2)))
    have h3 := List.append_cancel_left (by
      have := congrArg List.tail h2
      simpa using this :
        sd.data ++ ':' :: (ed.data ++ ':' :: dumpsCanon p1)
          = sd.data ++ ':' :: (ed.data ++ ':' :: dumpsCanon p2))
    have h4 := List.append_cancel_left (by
      have := congrArg List.tail h3
      simpa using this :
        ed.data ++ ':' :: dumpsCanon p1 = ed.data ++ ':' :: dumpsCanon p2)
    have h5 : dumpsCanon p1 = dumpsCanon p2 := by
      have := congrArg List.tail h4
      simpa using this
    unfold dumpsCanon at h5
    have h6 : entriesStr (sortParams p1) ++ ['\x7d']
        = entriesStr (sortParams p2) ++ ['\x7d'] := by
      have := congrArg List.tail h5
      simpa using this
    exact hdiff (entriesStr_chain (sortParams p1) (sortParams p2)
      ['\x7d'] ['\x7d'] hkeys rfl rfl h6).1

/-- Witness for the amended C4 at concrete inputs: two insertion orders
of the same mapping agree; distinct strategies, symbols, dates and
parameter values are exercised. -/
theorem generate_cache_key_properties_witness :
    generate_cache_key "rsi" "BTCUSDT" "2024-01-01" "2024-06-30"
        [("a", 1), ("b", 2)]
      = generate_cache_key "rsi" "BTCUSDT" "2024-01-01" "2024-06-30"
        [("b", 2), ("a", 1)] ∧
    generate_cache_key "rsi" "BTCUSDT" "2024-01-01" "2024-06-30" [("a", 1)]
      ≠ generate_cache_key "macd" "BTCUSDT" "2024-01-01" "2024-06-30"
        [("a", 1)] ∧
    generate_cache_key "rsi" "BTCUSDT" "2024-01-01" "2024-06-30" [("a", 1)]
      ≠ generate_cache_key "rsi" "ETHUSDT" "2024-01-01" "2024-06-30"
        [("a", 1)] ∧
    keyData "rsi" "BTCUSDT" "2024-01-01" "2024-06-30" [("a", 1)]
      ≠ keyData "rsi" "BTCUSDT" "2024-01-02" "2024-06-30" [("a", 1)] ∧
    keyData "rsi" "BTCUSDT" "2024-01-01" "2024-06-30" [("a", 1)]
      ≠ keyData "rsi" "BTCUSDT" "2024-01-01" "2024-07-31" [("a", 1)] ∧
    keyData "rsi" "BTCUSDT" "2024-01-01" "2024-06-30" [("a", 1)]
      ≠ keyData "rsi" "BTCUSDT" "2024-01-01" "2024-06-30" [("a", 2)] := by
  have h := generate_cache_key_properties
  refine ⟨h.1 _ _ _ _ _ _ (by decide) (by decide),
    h.2.1 _ _ _ _ _ _ (by decide),
    h.2.2.1 _ _ _ _ _ _ (by decide),
    h.2.2.2.1 _ _ _ _ _ _ (by decide),
    h.2.2.2.2.1 _ _ _ _ _ _ (by decide),
    h.2.2.2.2.2 _ _ _ _ _ _ (by decide) (by decide)⟩

end BacktestCache
